import Mathlib

/-!
Verification of the `sysfp` library (src/src/lib.rs), an x86-64 wrapper around
the MXCSR floating-point control/status register.

`Flags` and `Status` are opaque `u32` newtypes in the source; we model the
`u32` payload as a `Nat` and every bit operation exactly as the source writes
it (the Rust expression `!mask` on `u32` is the 32-bit complement, written
here as `0xFFFFFFFF ^^^ mask`).  Since all masks fit in 32 bits, `&&&` with a 32-bit
mask agrees with the `u32` operation on every in-range value.

The MXCSR layout constants below are the values of the `core::arch::x86_64`
intrinsic constants the source uses (`_MM_EXCEPT_*`, `_MM_MASK_MASK`,
`_MM_ROUND_*`, `_MM_FLUSH_ZERO_*`).
-/

namespace Sysfp

/-- Intrinsic constant `_MM_EXCEPT_INVALID` -/
def MM_EXCEPT_INVALID : Nat := 0x0001
/-- Intrinsic constant `_MM_EXCEPT_DENORM` -/
def MM_EXCEPT_DENORM : Nat := 0x0002
/-- Intrinsic constant `_MM_EXCEPT_DIV_ZERO` -/
def MM_EXCEPT_DIV_ZERO : Nat := 0x0004
/-- Intrinsic constant `_MM_EXCEPT_OVERFLOW` -/
def MM_EXCEPT_OVERFLOW : Nat := 0x0008
/-- Intrinsic constant `_MM_EXCEPT_UNDERFLOW` -/
def MM_EXCEPT_UNDERFLOW : Nat := 0x0010
/-- Intrinsic constant `_MM_EXCEPT_INEXACT` -/
def MM_EXCEPT_INEXACT : Nat := 0x0020
/-- Intrinsic constant `_MM_EXCEPT_MASK` (all six exception-flag bits, the invalid bit included) -/
def MM_EXCEPT_MASK : Nat := 0x003F
/-- Intrinsic constant `_MM_MASK_MASK` (the six exception-trap mask bits, bits 7..12) -/
def MM_MASK_MASK : Nat := 0x1F80
/-- Intrinsic constant `_MM_ROUND_NEAREST` -/
def MM_ROUND_NEAREST : Nat := 0x0000
/-- Intrinsic constant `_MM_ROUND_DOWN` -/
def MM_ROUND_DOWN : Nat := 0x2000
/-- Intrinsic constant `_MM_ROUND_UP` -/
def MM_ROUND_UP : Nat := 0x4000
/-- Intrinsic constant `_MM_ROUND_TOWARD_ZERO` -/
def MM_ROUND_TOWARD_ZERO : Nat := 0x6000
/-- Intrinsic constant `_MM_ROUND_MASK` (the two rounding-mode bits, bits 13..14) -/
def MM_ROUND_MASK : Nat := 0x6000
/-- Intrinsic constant `_MM_FLUSH_ZERO_MASK` (the flush-to-zero bit, bit 15) -/
def MM_FLUSH_ZERO_MASK : Nat := 0x8000
/-- Intrinsic constant `_MM_FLUSH_ZERO_ON` -/
def MM_FLUSH_ZERO_ON : Nat := 0x8000
/-- Intrinsic constant `_MM_FLUSH_ZERO_OFF` -/
def MM_FLUSH_ZERO_OFF : Nat := 0x0000

/-- The Rust expression `!mask` on a `u32`: the complement within 32 bits. -/
def u32_not (mask : Nat) : Nat := 0xFFFFFFFF ^^^ mask

/-- Source `enum Rounding` — the four rounding modes (lib.rs lines 8-17). -/
inductive Rounding where
  | Zero
  | Up
  | Down
  | Nearest
deriving DecidableEq, Repr

/-- The `#[repr(u32)]` discriminant of each `Rounding` variant
(`rounding as u32` in the source). -/
def Rounding.toBits : Rounding → Nat
  | .Zero => MM_ROUND_TOWARD_ZERO
  | .Up => MM_ROUND_UP
  | .Down => MM_ROUND_DOWN
  | .Nearest => MM_ROUND_NEAREST

/-- Source `struct Flags { inner: u32 }` (lib.rs lines 21-23). -/
structure Flags where
  inner : Nat
deriving DecidableEq, Repr

namespace Flags

/-- Source `Flags::new` (lib.rs lines 33-38): `inner = _MM_MASK_MASK`. -/
def new : Flags := ⟨MM_MASK_MASK⟩

/-- Source `impl Default for Flags` (lib.rs lines 25-30). -/
def default : Flags := new

/-- Source `Flags::set_rounding` (lib.rs lines 52-55):
`self.inner = (self.inner & !_MM_ROUND_MASK) | rounding as u32`.
The in-place mutation is modelled as returning the updated value. -/
def set_rounding (f : Flags) (rounding : Rounding) : Flags :=
  ⟨(f.inner &&& u32_not MM_ROUND_MASK) ||| rounding.toBits⟩

/-- Source `Flags::with_rounding` (lib.rs lines 40-44): calls `set_rounding` on a copy. -/
def with_rounding (f : Flags) (rounding : Rounding) : Flags :=
  f.set_rounding rounding

/-- Source `Flags::set_ftz` (lib.rs lines 67-75). -/
def set_ftz (f : Flags) (enabled : Bool) : Flags :=
  ⟨(f.inner &&& u32_not MM_FLUSH_ZERO_MASK) |||
    (if enabled then MM_FLUSH_ZERO_ON else MM_FLUSH_ZERO_OFF)⟩

/-- Source `Flags::with_ftz` (lib.rs lines 46-50): calls `set_ftz` on a copy. -/
def with_ftz (f : Flags) (enabled : Bool) : Flags :=
  f.set_ftz enabled

/-- Source `Flags::rounding` (lib.rs lines 57-65): a match on
`self.inner & _MM_ROUND_MASK` against the three nonzero discriminants, with
`Nearest` as the fall-through arm. -/
def rounding (f : Flags) : Rounding :=
  let b := f.inner &&& MM_ROUND_MASK
  if b = Rounding.Zero.toBits then .Zero
  else if b = Rounding.Up.toBits then .Up
  else if b = Rounding.Down.toBits then .Down
  else .Nearest

/-- Source `Flags::ftz` (lib.rs lines 77-80): `self.inner & _MM_FLUSH_ZERO_MASK != 0`. -/
def ftz (f : Flags) : Bool :=
  f.inner &&& MM_FLUSH_ZERO_MASK != 0

end Flags

/-- Source `struct Status { inner: u32 }` (lib.rs lines 85-87). -/
structure Status where
  inner : Nat
deriving DecidableEq, Repr

namespace Status

/-- Source `Status::OVERFLOW` (lib.rs lines 90-92). -/
def OVERFLOW : Status := ⟨MM_EXCEPT_OVERFLOW⟩
/-- Source `Status::UNDERFLOW` (lib.rs lines 93-95). -/
def UNDERFLOW : Status := ⟨MM_EXCEPT_UNDERFLOW⟩
/-- Source `Status::INEXACT` (lib.rs lines 96-98). -/
def INEXACT : Status := ⟨MM_EXCEPT_INEXACT⟩
/-- Source `Status::DENORM` (lib.rs lines 99-101). -/
def DENORM : Status := ⟨MM_EXCEPT_DENORM⟩
/-- Source `Status::DIV_ZERO` (lib.rs lines 102-104). -/
def DIV_ZERO : Status := ⟨MM_EXCEPT_DIV_ZERO⟩

/-- Source `Status::empty` (lib.rs lines 106-109). -/
def empty : Status := ⟨0⟩

/-- Source `Status::has_exceptions` (lib.rs lines 111-114):
`self.inner & _MM_EXCEPT_MASK != 0`. -/
def has_exceptions (s : Status) : Bool :=
  s.inner &&& MM_EXCEPT_MASK != 0

/-- Source `Status::has` (lib.rs lines 141-144): `self.inner & status.inner == status.inner`. -/
def has (s status : Status) : Bool :=
  s.inner &&& status.inner == status.inner

/-- Source `Status::overflow` (lib.rs lines 116-119). -/
def overflow (s : Status) : Bool := s.has OVERFLOW

/-- Source `Status::underflow` (lib.rs lines 121-124). -/
def underflow (s : Status) : Bool := s.has UNDERFLOW

/-- Source `Status::inexact` (lib.rs lines 126-129). -/
def inexact (s : Status) : Bool := s.has INEXACT

/-- Source `Status::denorm` (lib.rs lines 131-134). -/
def denorm (s : Status) : Bool := s.has DENORM

/-- Source `Status::div_zero` (lib.rs lines 136-139). -/
def div_zero (s : Status) : Bool := s.has DIV_ZERO

/-- Source `Status::or` (lib.rs lines 146-151): bitwise union. -/
def or (s other : Status) : Status := ⟨s.inner ||| other.inner⟩

/-- Source `Status::and` (lib.rs lines 153-158): bitwise intersection. -/
def and (s other : Status) : Status := ⟨s.inner &&& other.inner⟩

end Status

end Sysfp

namespace Sysfp

/-- A symbolic IEEE-754 binary64 datum, distinguishing the special values the
exception rules of division depend on.  `num` carries the exact magnitude of a
finite nonzero value as a rational. -/
inductive F64 where
  | nan
  | inf (neg : Bool)
  | zero (neg : Bool)
  | num (neg : Bool) (mag : ℚ)
deriving DecidableEq

/-- Modelled from the spec: the hardware `divsd` instruction is a single
IEEE-754 double-precision division whose exceptional conditions are reported
as MXCSR exception-flag bits (spec sections 4.4 and 7).  The special cases
(NaN operands, infinities, zero divisor or dividend) follow the IEEE-754
rules the spec defers to; in particular a finite nonzero dividend over a zero
divisor yields a correctly signed infinity and raises the divide-by-zero
flag.  The finite-nonzero over finite-nonzero case needs the full rounding
algorithm, which neither the source nor the spec spells out, so it is
delegated to the parameter `finCase` (given the sign of the quotient and the
two magnitudes).  Returns the result value and the raised exception bits. -/
def divsd (finCase : Bool → ℚ → ℚ → F64 × Nat) : F64 → F64 → F64 × Nat
  | .nan, _ => (.nan, 0)
  | _, .nan => (.nan, 0)
  | .inf _, .inf _ => (.nan, MM_EXCEPT_INVALID)
  | .inf s1, .zero s2 => (.inf (xor s1 s2), 0)
  | .inf s1, .num s2 _ => (.inf (xor s1 s2), 0)
  | .zero s1, .inf s2 => (.zero (xor s1 s2), 0)
  | .num s1 _, .inf s2 => (.zero (xor s1 s2), 0)
  | .zero _, .zero _ => (.nan, MM_EXCEPT_INVALID)
  | .zero s1, .num s2 _ => (.zero (xor s1 s2), 0)
  | .num s1 _, .zero s2 => (.inf (xor s1 s2), MM_EXCEPT_DIV_ZERO)
  | .num s1 m1, .num s2 m2 => finCase (xor s1 s2) m1 m2

namespace f64

/-- Source `f64::div` (lib.rs lines 219-227) through the `host_op!` macro
(lib.rs lines 161-176): `ldmxcsr` installs `flags.inner` as the MXCSR word
(so the sticky exception bits start out exactly as `flags` sets them), the
one `divsd` instruction executes and ORs the exceptions it raises into the
sticky bits, and `stmxcsr` reads the whole word back as the returned
`Status`. -/
def div (flags : Flags) (l r : F64) (finCase : Bool → ℚ → ℚ → F64 × Nat) :
    F64 × Status :=
  let res := divsd finCase l r
  (res.1, ⟨flags.inner ||| res.2⟩)

/-- Modelled from the spec: the `cvtsd2ss xmm, xmm` narrowing instruction
(spec section 4.4, `to_single`) writes the correctly rounded single-precision
result into bits 0..31 of its destination register and leaves bits 32..63
unchanged.  `xbits` is the 64-bit pattern of the double operand occupying the
register, `resBits` stands for the IEEE-754-correct 32-bit narrowing of that
operand under the installed control word.  Returns the low 64 bits of the
register after the instruction. -/
def cvtsd2ss_reg (xbits resBits : Nat) : Nat :=
  (xbits / 2 ^ 32) * 2 ^ 32 + resBits

/-- Source `f64::to_single` (lib.rs lines 242-252): after the `host_op!`
sequence runs `cvtsd2ss {fp}, {fp}` in place, the register is read back as
the `f64` variable `double` and the function returns
`f32::from_bits(double.to_bits() as u32)` — the low 32 bits of the register —
paired with the read-back status word.  The first component is the bit
pattern handed to `f32::from_bits`. -/
def to_single (flags : Flags) (xbits resBits raised : Nat) : Nat × Status :=
  let reg := cvtsd2ss_reg xbits resBits
  (reg % 2 ^ 32, ⟨flags.inner ||| raised⟩)

end f64

/-- The `Flags` values reachable through the public API: `new` or `default`,
transformed by any sequence of `set_rounding`, `with_rounding`, `set_ftz`,
`with_ftz`. -/
inductive Reachable : Flags → Prop where
  | new : Reachable Flags.new
  | default : Reachable Flags.default
  | set_rounding {f : Flags} (m : Rounding) : Reachable f → Reachable (f.set_rounding m)
  | with_rounding {f : Flags} (m : Rounding) : Reachable f → Reachable (f.with_rounding m)
  | set_ftz {f : Flags} (b : Bool) : Reachable f → Reachable (f.set_ftz b)
  | with_ftz {f : Flags} (b : Bool) : Reachable f → Reachable (f.with_ftz b)

/- Bitwise helper lemmas. -/

/-- Distribute a final mask over a masked-update expression. -/
theorem land_lor_land (x a b c : Nat) :
    ((x &&& a) ||| b) &&& c = (x &&& (a &&& c)) ||| (b &&& c) := by
  apply Nat.eq_of_testBit_eq
  intro i
  simp only [Nat.testBit_land, Nat.testBit_lor]
  cases x.testBit i <;> cases a.testBit i <;> cases b.testBit i <;> cases c.testBit i <;> rfl

/-- A bit-clearing update followed by a bit-setting update leaves every bit
outside both touched regions as it was. -/
theorem update_preserves (x a r c : Nat) (h1 : a &&& c = c) (h2 : r &&& c = 0) :
    ((x &&& a) ||| r) &&& c = x &&& c := by
  rw [land_lor_land, h1, h2, Nat.or_zero]

/-- Subset characterisation of `a &&& b = b`. -/
theorem and_eq_right_iff (a b : Nat) :
    a &&& b = b ↔ ∀ i, b.testBit i = true → a.testBit i = true := by
  constructor
  · intro h i hb
    have h2 : (a &&& b).testBit i = b.testBit i := by rw [h]
    rw [Nat.testBit_land, hb, Bool.and_true] at h2
    exact h2
  · intro h
    apply Nat.eq_of_testBit_eq
    intro i
    rw [Nat.testBit_land]
    cases hb : b.testBit i
    · rw [Bool.and_false]
    · rw [h i hb, Bool.true_and]

/-- Union absorbs either operand under intersection. -/
theorem lor_land_self_left (a b : Nat) : (a ||| b) &&& a = a := by
  apply Nat.eq_of_testBit_eq
  intro i
  simp only [Nat.testBit_land, Nat.testBit_lor]
  cases a.testBit i <;> cases b.testBit i <;> rfl

/-- Union absorbs its right operand under intersection. -/
theorem lor_land_self_right (a b : Nat) : (a ||| b) &&& b = b := by
  apply Nat.eq_of_testBit_eq
  intro i
  simp only [Nat.testBit_land, Nat.testBit_lor]
  cases a.testBit i <;> cases b.testBit i <;> rfl

/-- The six-bit exception field is nonzero exactly when one of its six bits
is set. -/
theorem except_field_cases (x : Nat) :
    (x &&& 0x3F != 0) =
      ((x &&& 8 == 8) || (x &&& 16 == 16) || (x &&& 32 == 32) ||
       (x &&& 2 == 2) || (x &&& 4 == 4) || (x &&& 1 == 1)) := by
  have hc : ∀ c : Nat, (63 : Nat) &&& c = c → x &&& c = x &&& 63 &&& c := by
    intro c hc
    rw [Nat.and_assoc, hc]
  have key : ∀ y < 64, (y != 0) =
      ((y &&& 8 == 8) || (y &&& 16 == 16) || (y &&& 32 == 32) ||
       (y &&& 2 == 2) || (y &&& 4 == 4) || (y &&& 1 == 1)) := by decide
  rw [hc 8 (by decide), hc 16 (by decide), hc 32 (by decide),
    hc 2 (by decide), hc 4 (by decide), hc 1 (by decide)]
  exact key (x &&& 63) (Nat.lt_succ_of_le Nat.and_le_right)

/-- The decoded rounding mode only depends on the two rounding bits. -/
theorem rounding_congr {f g : Flags}
    (h : f.inner &&& MM_ROUND_MASK = g.inner &&& MM_ROUND_MASK) :
    f.rounding = g.rounding := by
  simp only [Flags.rounding]
  rw [h]

/-- After `set_rounding`, the two rounding bits hold exactly the discriminant
of the requested mode. -/
theorem set_rounding_bits (f : Flags) (m : Rounding) :
    (f.set_rounding m).inner &&& MM_ROUND_MASK = m.toBits := by
  show ((f.inner &&& u32_not MM_ROUND_MASK) ||| m.toBits) &&& MM_ROUND_MASK = m.toBits
  rw [land_lor_land]
  have h1 : u32_not MM_ROUND_MASK &&& MM_ROUND_MASK = 0 := by decide
  rw [h1, Nat.and_zero, Nat.zero_or]
  cases m <;> decide

end Sysfp

namespace Sysfp

/-- Setting the rounding mode leaves every bit region disjoint from the
rounding field untouched. -/
theorem set_rounding_preserves (f : Flags) (m : Rounding) (c : Nat)
    (h1 : u32_not MM_ROUND_MASK &&& c = c) (h2 : m.toBits &&& c = 0) :
    (f.set_rounding m).inner &&& c = f.inner &&& c := by
  show ((f.inner &&& u32_not MM_ROUND_MASK) ||| m.toBits) &&& c = f.inner &&& c
  exact update_preserves _ _ _ _ h1 h2

/-- Setting the flush-to-zero bit leaves every bit region disjoint from the
flush field untouched. -/
theorem set_ftz_preserves (f : Flags) (b : Bool) (c : Nat)
    (h1 : u32_not MM_FLUSH_ZERO_MASK &&& c = c)
    (h2 : (if b then MM_FLUSH_ZERO_ON else MM_FLUSH_ZERO_OFF) &&& c = 0) :
    (f.set_ftz b).inner &&& c = f.inner &&& c := by
  show ((f.inner &&& u32_not MM_FLUSH_ZERO_MASK) |||
      (if b then MM_FLUSH_ZERO_ON else MM_FLUSH_ZERO_OFF)) &&& c = f.inner &&& c
  exact update_preserves _ _ _ _ h1 h2

/-- Narrowing a mask: if `c` absorbs `d` then masking by `d` factors through
masking by `c`. -/
theorem and_absorb (x c d : Nat) (h : c &&& d = d) : x &&& d = (x &&& c) &&& d := by
  rw [Nat.and_assoc, h]

/-- Every API-reachable `Flags` value agrees with `Flags.new` on all bits
outside the rounding-mode and flush-to-zero fields. -/
theorem reachable_outside_bits {f : Flags} (h : Reachable f) :
    f.inner &&& u32_not (MM_ROUND_MASK ||| MM_FLUSH_ZERO_MASK) = Flags.new.inner := by
  induction h with
  | new => decide
  | default => decide
  | set_rounding m _ ih =>
      rw [set_rounding_preserves _ m _ (by decide) (by cases m <;> decide)]
      exact ih
  | with_rounding m _ ih =>
      rw [show Flags.with_rounding = Flags.set_rounding from rfl]
      rw [set_rounding_preserves _ m _ (by decide) (by cases m <;> decide)]
      exact ih
  | set_ftz b _ ih =>
      rw [set_ftz_preserves _ b _ (by decide) (by cases b <;> decide)]
      exact ih
  | with_ftz b _ ih =>
      rw [show Flags.with_ftz = Flags.set_ftz from rfl]
      rw [set_ftz_preserves _ b _ (by decide) (by cases b <;> decide)]
      exact ih

/-- C1: for every rounding mode `m` and every `Flags` value `f`, after
`with_rounding m` (equivalently `set_rounding m`) the accessor `rounding`
returns exactly `m`, and every bit of `f` outside the rounding-mode field —
the flush-to-zero bit and the exception-trap mask bits included — is
unchanged by the call. -/
theorem C1_rounding_roundtrip (f : Flags) (m : Rounding) :
    (f.with_rounding m).rounding = m ∧
    (f.set_rounding m).rounding = m ∧
    (f.set_rounding m).ftz = f.ftz ∧
    (f.set_rounding m).inner &&& MM_FLUSH_ZERO_MASK = f.inner &&& MM_FLUSH_ZERO_MASK ∧
    (f.set_rounding m).inner &&& MM_MASK_MASK = f.inner &&& MM_MASK_MASK ∧
    (f.set_rounding m).inner &&& u32_not MM_ROUND_MASK = f.inner &&& u32_not MM_ROUND_MASK := by
  have hround : (f.set_rounding m).rounding = m := by
    have hb := set_rounding_bits f m
    simp only [Flags.rounding]
    rw [hb]
    cases m <;> rfl
  have hflush : (f.set_rounding m).inner &&& MM_FLUSH_ZERO_MASK =
      f.inner &&& MM_FLUSH_ZERO_MASK :=
    set_rounding_preserves f m _ (by decide) (by cases m <;> decide)
  refine ⟨hround, hround, ?_, hflush, ?_, ?_⟩
  · simp only [Flags.ftz]
    rw [hflush]
  · exact set_rounding_preserves f m _ (by decide) (by cases m <;> decide)
  · exact set_rounding_preserves f m _ (Nat.and_self _) (by cases m <;> decide)

/-- C3: `Flags::new` is the documented default configuration — rounding mode
round-to-nearest, flush-to-zero disabled, and all six exception-trap mask
bits set. -/
theorem C3_new_default : Flags.new.rounding = Rounding.Nearest ∧
    Flags.new.ftz = false ∧
    Flags.new.inner &&& MM_MASK_MASK = MM_MASK_MASK := by decide

/-- C4: for every boolean `b` and every `Flags` value `f`,
`(f.with_ftz b).ftz = b` (likewise for the in-place `set_ftz`), and the
rounding-mode bits and exception-trap mask bits of `f` are unaffected. -/
theorem C4_ftz_roundtrip (f : Flags) (b : Bool) :
    (f.with_ftz b).ftz = b ∧
    (f.set_ftz b).ftz = b ∧
    (f.set_ftz b).rounding = f.rounding ∧
    (f.set_ftz b).inner &&& MM_ROUND_MASK = f.inner &&& MM_ROUND_MASK ∧
    (f.set_ftz b).inner &&& MM_MASK_MASK = f.inner &&& MM_MASK_MASK := by
  have hbits : (f.set_ftz b).inner &&& MM_FLUSH_ZERO_MASK =
      (if b then MM_FLUSH_ZERO_ON else MM_FLUSH_ZERO_OFF) := by
    show ((f.inner &&& u32_not MM_FLUSH_ZERO_MASK) |||
        (if b then MM_FLUSH_ZERO_ON else MM_FLUSH_ZERO_OFF)) &&& MM_FLUSH_ZERO_MASK = _
    rw [land_lor_land]
    have h1 : u32_not MM_FLUSH_ZERO_MASK &&& MM_FLUSH_ZERO_MASK = 0 := by decide
    rw [h1, Nat.and_zero, Nat.zero_or]
    cases b <;> decide
  have hftz : (f.set_ftz b).ftz = b := by
    simp only [Flags.ftz]
    rw [hbits]
    cases b <;> decide
  have hrbits : (f.set_ftz b).inner &&& MM_ROUND_MASK = f.inner &&& MM_ROUND_MASK :=
    set_ftz_preserves f b _ (by decide) (by cases b <;> decide)
  refine ⟨hftz, hftz, ?_, hrbits, ?_⟩
  · exact rounding_congr hrbits
  · exact set_ftz_preserves f b _ (by decide) (by cases b <;> decide)

/-- C2 counterexample: the `Status` value carrying only the MXCSR
invalid-operation bit (`_MM_EXCEPT_INVALID`, bit 0) — the value
`f64::div(Flags::new(), 0.0, 0.0)` reads back, exception-mask bits aside —
has none of the five named flags set, yet `has_exceptions` returns `true`,
because the source masks with `_MM_EXCEPT_MASK = 0x3F`, which includes the
invalid bit. -/
theorem C2_invalid_bit_counterexample :
    (Status.mk MM_EXCEPT_INVALID).overflow = false ∧
    (Status.mk MM_EXCEPT_INVALID).underflow = false ∧
    (Status.mk MM_EXCEPT_INVALID).inexact = false ∧
    (Status.mk MM_EXCEPT_INVALID).denorm = false ∧
    (Status.mk MM_EXCEPT_INVALID).div_zero = false ∧
    (Status.mk MM_EXCEPT_INVALID).has_exceptions = true := by decide

/-- C2 (amended): for every `Status` value `s`, `has_exceptions` returns
`true` iff at least one of the six MXCSR exception bits is set — the five
named flags (overflow, underflow, inexact, denormal-operand, divide-by-zero)
or the invalid-operation bit.  In particular it returns `true` whenever one
of the five named flags is set, but it also returns `true` when only the
invalid-operation bit is set. -/
theorem C2_has_exceptions_amended (s : Status) :
    s.has_exceptions =
      (s.overflow || s.underflow || s.inexact || s.denorm || s.div_zero ||
        s.has (Status.mk MM_EXCEPT_INVALID)) := by
  show (s.inner &&& 0x3F != 0) =
    ((s.inner &&& 8 == 8) || (s.inner &&& 16 == 16) || (s.inner &&& 32 == 32) ||
     (s.inner &&& 2 == 2) || (s.inner &&& 4 == 4) || (s.inner &&& 1 == 1))
  exact except_field_cases s.inner

/-- C5: `Status::empty()` reports no exceptions; each of the five single-flag
constants reports exceptions, satisfies exactly its own kind predicate, and
fails the other four predicates. -/
theorem C5_constants_predicates :
    Status.empty.has_exceptions = false ∧
    (Status.OVERFLOW.has_exceptions = true ∧ Status.OVERFLOW.overflow = true ∧
      Status.OVERFLOW.underflow = false ∧ Status.OVERFLOW.inexact = false ∧
      Status.OVERFLOW.denorm = false ∧ Status.OVERFLOW.div_zero = false) ∧
    (Status.UNDERFLOW.has_exceptions = true ∧ Status.UNDERFLOW.underflow = true ∧
      Status.UNDERFLOW.overflow = false ∧ Status.UNDERFLOW.inexact = false ∧
      Status.UNDERFLOW.denorm = false ∧ Status.UNDERFLOW.div_zero = false) ∧
    (Status.INEXACT.has_exceptions = true ∧ Status.INEXACT.inexact = true ∧
      Status.INEXACT.overflow = false ∧ Status.INEXACT.underflow = false ∧
      Status.INEXACT.denorm = false ∧ Status.INEXACT.div_zero = false) ∧
    (Status.DENORM.has_exceptions = true ∧ Status.DENORM.denorm = true ∧
      Status.DENORM.overflow = false ∧ Status.DENORM.underflow = false ∧
      Status.DENORM.inexact = false ∧ Status.DENORM.div_zero = false) ∧
    (Status.DIV_ZERO.has_exceptions = true ∧ Status.DIV_ZERO.div_zero = true ∧
      Status.DIV_ZERO.overflow = false ∧ Status.DIV_ZERO.underflow = false ∧
      Status.DIV_ZERO.inexact = false ∧ Status.DIV_ZERO.denorm = false) := by decide

/-- C6: `has` is the subset test (every flag set in the argument is set in
the receiver); `or` produces a superset of both operands; and
`a.and(b).has(a)` holds only when `b.has(a)` does. -/
theorem C6_has_or_and_laws :
    (∀ a b : Status, a.has b = true ↔
      ∀ i, b.inner.testBit i = true → a.inner.testBit i = true) ∧
    (∀ a b : Status, (a.or b).has a = true ∧ (a.or b).has b = true) ∧
    (∀ a b : Status, (a.and b).has a = true → b.has a = true) := by
  refine ⟨?_, ?_, ?_⟩
  · intro a b
    show (a.inner &&& b.inner == b.inner) = true ↔ _
    rw [beq_iff_eq]
    exact and_eq_right_iff a.inner b.inner
  · intro a b
    constructor
    · show ((a.inner ||| b.inner) &&& a.inner == a.inner) = true
      rw [beq_iff_eq]
      exact lor_land_self_left a.inner b.inner
    · show ((a.inner ||| b.inner) &&& b.inner == b.inner) = true
      rw [beq_iff_eq]
      exact lor_land_self_right a.inner b.inner
  · intro a b h
    show (b.inner &&& a.inner == a.inner) = true
    rw [beq_iff_eq]
    have h2 : (a.inner &&& b.inner) &&& a.inner = a.inner := by
      simp only [Status.has, Status.and, beq_iff_eq] at h
      exact h
    rw [Nat.and_assoc, Nat.and_comm b.inner a.inner, ← Nat.and_assoc,
      Nat.and_self] at h2
    rw [Nat.and_comm]
    exact h2

/-- C6 witness: the third law applied at `a = b = Status.DIV_ZERO`, with its
hypothesis discharged by evaluation. -/
theorem C6_witness : Status.DIV_ZERO.has Status.DIV_ZERO = true :=
  C6_has_or_and_laws.2.2 Status.DIV_ZERO Status.DIV_ZERO (by decide)

/-- C7: for every control word, every double-precision operand and every
correctly-rounded 32-bit narrowing `resBits` the `cvtsd2ss` instruction
produces, `to_single` returns exactly `resBits` as the bit pattern of its
first component: the `f32::from_bits(double.to_bits() as u32)` reinterpretation
extracts precisely the low 32 register bits the instruction wrote, so the
returned single is the IEEE-754-correct narrowing. -/
theorem C7_to_single_correct (flags : Flags) (xbits resBits raised : Nat)
    (h : resBits < 2 ^ 32) :
    (f64.to_single flags xbits resBits raised).1 = resBits := by
  show ((xbits / 2 ^ 32) * 2 ^ 32 + resBits) % 2 ^ 32 = resBits
  rw [Nat.mul_comm, Nat.mul_add_mod, Nat.mod_eq_of_lt h]

/-- C7 witness: the narrowing of `1.0f64` (bits `0x3FF0000000000000`) to
`1.0f32` (bits `0x3F800000`) under the default control word. -/
theorem C7_witness :
    (0x3F800000 : Nat) < 2 ^ 32 ∧
    (f64.to_single Flags.new 0x3FF0000000000000 0x3F800000 0).1 = 0x3F800000 :=
  ⟨by decide, C7_to_single_correct Flags.new 0x3FF0000000000000 0x3F800000 0 (by decide)⟩

/-- C8: dividing `1.0` by `0.0` under the default flags returns positive
infinity as the numeric component, and the returned `Status` has the
divide-by-zero flag set (for any resolution of the finite-quotient case of
the division instruction, which this input never reaches). -/
theorem C8_div_one_by_zero (finCase : Bool → ℚ → ℚ → F64 × Nat) :
    (f64.div Flags.new (F64.num false 1) (F64.zero false) finCase).1 = F64.inf false ∧
    (f64.div Flags.new (F64.num false 1) (F64.zero false) finCase).2.div_zero = true :=
  ⟨rfl, by
    show (Status.mk (Flags.new.inner ||| MM_EXCEPT_DIV_ZERO)).div_zero = true
    decide⟩

/-- C9: every `Flags` value reachable through the public API agrees with
`Flags::new` on all bits outside the rounding-mode and flush-to-zero fields;
in particular the six sticky exception-flag bits are always zero and the
exception-trap mask bits are always all set. -/
theorem C9_reachable_invariant (f : Flags) (h : Reachable f) :
    f.inner &&& u32_not (MM_ROUND_MASK ||| MM_FLUSH_ZERO_MASK) =
      Flags.new.inner &&& u32_not (MM_ROUND_MASK ||| MM_FLUSH_ZERO_MASK) ∧
    f.inner &&& MM_EXCEPT_MASK = 0 ∧
    f.inner &&& MM_MASK_MASK = MM_MASK_MASK := by
  have key := reachable_outside_bits h
  refine ⟨?_, ?_, ?_⟩
  · rw [key]
    decide
  · rw [and_absorb f.inner (u32_not (MM_ROUND_MASK ||| MM_FLUSH_ZERO_MASK))
      MM_EXCEPT_MASK (by decide), key]
    decide
  · rw [and_absorb f.inner (u32_not (MM_ROUND_MASK ||| MM_FLUSH_ZERO_MASK))
      MM_MASK_MASK (by decide), key]
    decide

/-- C9 witness: the invariant at the concrete reachable value
`Flags::new().with_rounding(Up).with_ftz(true)`. -/
theorem C9_witness :
    ((Flags.new.with_rounding Rounding.Up).with_ftz true).inner &&&
        u32_not (MM_ROUND_MASK ||| MM_FLUSH_ZERO_MASK) =
      Flags.new.inner &&& u32_not (MM_ROUND_MASK ||| MM_FLUSH_ZERO_MASK) ∧
    ((Flags.new.with_rounding Rounding.Up).with_ftz true).inner &&& MM_EXCEPT_MASK = 0 ∧
    ((Flags.new.with_rounding Rounding.Up).with_ftz true).inner &&& MM_MASK_MASK = MM_MASK_MASK :=
  C9_reachable_invariant _
    (Reachable.with_ftz true (Reachable.with_rounding Rounding.Up Reachable.new))

/-- C10: `has` is reflexive, `Status::empty()` is a subset of every `Status`
and the identity of `or` on both sides (bit-pattern equality). -/
theorem C10_empty_identity (s : Status) :
    s.has s = true ∧ s.has Status.empty = true ∧
    Status.empty.or s = s ∧ s.or Status.empty = s := by
  refine ⟨?_, ?_, ?_, ?_⟩
  · show (s.inner &&& s.inner == s.inner) = true
    rw [beq_iff_eq]
    exact Nat.and_self s.inner
  · show (s.inner &&& 0 == 0) = true
    rw [beq_iff_eq]
    exact Nat.and_zero s.inner
  · show Status.mk (0 ||| s.inner) = s
    rw [Nat.zero_or]
  · show Status.mk (s.inner ||| 0) = s
    rw [Nat.or_zero]

end Sysfp
